import Mathlib

/-!
Verification of the gosqldb table engine (src/db.go, final revision) against its
natural-language specification.

The Go code is shallowly embedded: Go maps become association lists with a
canonical iteration order (legitimate because every map iteration in the code is
order-independent: it only sets pairwise-distinct indices or performs membership
tests), dynamically typed row cells (Go interface values produced by JSON
decoding) become the closed inductive type Value, files become an explicit
FileState value, and the file-system faults the code can encounter are injected
through an explicit IOFault record.
-/

/-- A row cell. JSON decoding in Go yields float64 for numbers; the engine
treats integral floats as integers (valueType in db.go), so integral numbers
are modelled directly as Int. -/
inductive Value
  | intVal (n : Int)
  | strVal (s : String)
  | boolVal (b : Bool)
  | nullVal
deriving DecidableEq, Repr

abbrev Row := List Value

/-- Model of the Go reflect.Type values that the engine compares:
reflect.TypeOf(0), reflect.TypeOf(""), bool, and the nil type returned by
ColumnDef.ReflectType for an unknown column type. -/
inductive GoType
  | tInt
  | tString
  | tBool
  | tNil
deriving DecidableEq, Repr

/-- Model of valueType in db.go: float64 values with no fractional part have
integer type; other values keep their own reflect type. -/
def valueTypeOf : Value → GoType
  | .intVal _ => .tInt
  | .strVal _ => .tString
  | .boolVal _ => .tBool
  | .nullVal => .tNil

/-- A JSON document, as written by encoding/json for row files. -/
inductive Jval
  | jnum (n : Int)
  | jstr (s : String)
  | jbool (b : Bool)
  | jnull
  | jarr (xs : List Jval)

/-- JSON encoding of one row cell (encoding/json on the Value variants). -/
def encodeVal : Value → Jval
  | .intVal n => .jnum n
  | .strVal s => .jstr s
  | .boolVal b => .jbool b
  | .nullVal => .jnull

/-- JSON decoding of one row cell (json.Unmarshal into interface values:
numbers written by the engine are integral and come back as integral float64,
modelled as intVal). -/
def decodeVal : Jval → Option Value
  | .jnum n => some (.intVal n)
  | .jstr s => some (.strVal s)
  | .jbool b => some (.boolVal b)
  | .jnull => some Value.nullVal
  | .jarr _ => none

def encodeRow (r : Row) : Jval := .jarr (r.map encodeVal)

def encodeRows (rs : List Row) : Jval := .jarr (rs.map encodeRow)

/-- Decode a list of JSON values elementwise, failing if any element fails. -/
def decodeList (f : Jval → Option α) : List Jval → Option (List α)
  | [] => some []
  | x :: xs =>
    match f x, decodeList f xs with
    | some v, some vs => some (v :: vs)
    | _, _ => none

def decodeRow : Jval → Option Row
  | .jarr xs => decodeList decodeVal xs
  | _ => none

def decodeRows : Jval → Option (List Row)
  | .jarr xs => decodeList decodeRow xs
  | _ => none

/-- Association-list model of a Go map: lookup by key, first match. -/
def mapGet : List (String × α) → String → Option α
  | [], _ => none
  | (k, v) :: rest, key => if k = key then some v else mapGet rest key

/-- Association-list model of Go map assignment: replace in place or append. -/
def mapInsert : List (String × α) → String → α → List (String × α)
  | [], key, v => [(key, v)]
  | (k, w) :: rest, key, v =>
    if k = key then (key, v) :: rest else (k, w) :: mapInsert rest key v

/-- A table column: name (lower-cased), type tag, zero-based position. -/
structure ColumnDef where
  name : String
  type : String
  position : Nat
deriving DecidableEq, Repr

/-- The Go zero value of ColumnDef, produced by a missed map lookup. -/
def zeroColumnDef : ColumnDef := ⟨"", "", 0⟩

/-- A table schema: name plus columns keyed by lower-case column name. -/
structure Schema where
  name : String
  columns : List (String × ColumnDef)
deriving DecidableEq, Repr

/-- ColumnDef.ReflectType in db.go; unknown types give the nil reflect type. -/
def ColumnDef.reflectType (d : ColumnDef) : GoType :=
  if d.type = "integer" then .tInt
  else if d.type = "string" then .tString
  else .tNil

/-- Model of the regular expression check for table and column names
(entityNameRegExp matches nonempty strings of ASCII letters, digits and
underscore). -/
def isValidNameFormat (s : String) : Bool :=
  s.length != 0 && s.toList.all (fun c => c.isAlphanum || c == '_')

/-- Model of strings.ToLower as used on the ASCII table, column and type names
the engine handles (Char.toLower lower-cases exactly the ASCII letters). -/
def strToLower (s : String) : String := String.mk (s.toList.map Char.toLower)

/-- A column specification inside a CREATE TABLE query. -/
structure ColumnSpec where
  name : String
  type : String
deriving DecidableEq, Repr

structure CreateTableQuery where
  tableName : String
  columns : List ColumnSpec
deriving DecidableEq, Repr

/-- WHERE operand: an interface value plus a type tag string. -/
structure Operand where
  value : Value
  type : String
deriving DecidableEq, Repr

structure WhereExpression where
  left : Operand
  operation : String
  right : Operand
deriving DecidableEq, Repr

structure SetExpression where
  column : String
  value : Value
deriving DecidableEq, Repr

structure SelectQuery where
  fromTable : String
  whereExprs : List WhereExpression
deriving DecidableEq, Repr

structure InsertQuery where
  tableName : String
  columns : List String
  values : List Row
deriving DecidableEq, Repr

/-- UpdateQuery including the Limit field declared in queries.go; the engine
never reads it. -/
structure UpdateQuery where
  tableName : String
  whereExprs : List WhereExpression
  set : List SetExpression
  limit : Int
deriving DecidableEq, Repr

structure DeleteQuery where
  tableName : String
  whereExprs : List WhereExpression
  limit : Int
deriving DecidableEq, Repr

/-- On-disk state of one row file. A corrupt file is one holding bytes that are
not a complete JSON snapshot (in particular, a file truncated by os.Create and
not rewritten). -/
inductive FileState
  | missing
  | content (j : Jval)
  | corrupt

/-- Injected file-system fault outcomes for one updateFile call. -/
structure IOFault where
  createFails : Bool
  encodeFails : Bool
deriving DecidableEq, Repr

def noFault : IOFault := ⟨false, false⟩

/-- The read phase of updateFile and loadData: ioutil.ReadFile followed by
json.Unmarshal; a missing file yields the empty row list. -/
def readTableFile : FileState → Except String (List Row)
  | .missing => .ok []
  | .content j =>
    match decodeRows j with
    | some rs => .ok rs
    | none => .error "failed to decode JSON"
  | .corrupt => .error "failed to decode JSON"

/-- Database.updateFile in db.go. IMPORTANT fidelity point: the source calls
os.Create (which truncates the existing file to zero length) BEFORE the
updateRows callback runs and before the new content is encoded, so a later
failure leaves the file truncated (modelled as FileState.corrupt). -/
def updateFile (f : IOFault) (file : FileState)
    (updateRows : List Row → Except String (List Row)) :
    FileState × Option String :=
  match readTableFile file with
  | .error e => (file, some e)
  | .ok rows =>
    if f.createFails then (file, some "failed to create file for write")
    else
      -- os.Create has truncated the file: from here on, until a successful
      -- encode, the on-disk bytes are not a complete snapshot
      match updateRows rows with
      | .error e => (.corrupt, some ("failed to update rows: " ++ e))
      | .ok newRows =>
        if f.encodeFails then (.corrupt, some "failed to encode JSON and write to file")
        else (.content (encodeRows newRows), none)

/-- Database.writeToFileNewRows in db.go. -/
def writeToFileNewRows (f : IOFault) (file : FileState) (newRows : List Row) :
    FileState × Option String :=
  updateFile f file (fun rows => .ok (rows ++ newRows))

/-- Row replacement at given indices, as performed both by the
updateRowsInFile callback and by the Update in-memory write-back loop. -/
def applyUpdates (upd : List (Nat × Row)) (rows : List Row) : List Row :=
  upd.foldl (fun rs e => rs.set e.1 e.2) rows

/-- Database.updateRowsInFile in db.go. -/
def updateRowsInFile (f : IOFault) (file : FileState) (upd : List (Nat × Row)) :
    FileState × Option String :=
  updateFile f file (fun rows => .ok (applyUpdates upd rows))

/-- Row removal at given indices, as performed both by the deleteRowsInFile
callback and by the Delete in-memory rebuild loop. -/
def removeRows (idxs : List Nat) (rows : List Row) : List Row :=
  (rows.enum.filter (fun e => !(idxs.contains e.1))).map (fun e => e.2)

/-- Database.deleteRowsInFile in db.go. -/
def deleteRowsInFile (f : IOFault) (file : FileState) (idxs : List Nat) :
    FileState × Option String :=
  updateFile f file (fun rows => .ok (removeRows idxs rows))

/-- The engine state: the catalog (tables), the in-memory row mirror (data)
and the per-table row files. The meta-file itself is abstracted: storeSchema
success is injected as a flag at each CreateTable call. -/
structure DB where
  tables : List (String × Schema)
  data : List (String × List Row)
  files : List (String × FileState)

/-- Reading db.data for a table: a missing Go map entry is a nil slice. -/
def rowsInMem (db : DB) (t : String) : List Row := (mapGet db.data t).getD []

/-- The on-disk file of a table; no entry means the file does not exist. -/
def fileOf (db : DB) (t : String) : FileState := (mapGet db.files t).getD .missing

def setData (db : DB) (t : String) (rs : List Row) : DB :=
  { db with data := mapInsert db.data t rs }

def setFile (db : DB) (t : String) (fs : FileState) : DB :=
  { db with files := mapInsert db.files t fs }

/-- The per-column validation loop of Database.CreateTable. Fidelity point:
the source checks isValidColumnNameFormat(tableName) — the table name, not
the column name (db.go line 394). -/
def buildColumns (tableName : String) :
    List ColumnSpec → Nat → List String → List (String × ColumnDef) →
    Except String (List (String × ColumnDef))
  | [], _, _, acc => .ok acc
  | c :: rest, pos, names, acc =>
    let columnName := strToLower c.name
    if columnName.length = 0 then .error "column name is empty"
    else if !isValidNameFormat tableName then .error "column name is not valid"
    else if names.contains columnName then .error "column definition is repeated"
    else
      let columnType := strToLower c.type
      if !(columnType = "integer" || columnType = "string") then
        .error "type definition is not found"
      else
        buildColumns tableName rest (pos + 1) (columnName :: names)
          (mapInsert acc columnName ⟨columnName, columnType, pos⟩)

/-- Database.CreateTable in db.go. storeOk injects the outcome of storeSchema.
Fidelity point: the source inserts the new table into db.tables BEFORE calling
storeSchema and does not remove it when storeSchema fails. -/
def createTable (storeOk : Bool) (db : DB) (q : CreateTableQuery) :
    DB × Except String Unit :=
  let tableName := strToLower q.tableName
  if tableName.length = 0 then (db, .error "table name is empty")
  else if !isValidNameFormat tableName then (db, .error "table name is not valid")
  else if (mapGet db.tables tableName).isSome then
    (db, .error "table exists")
  else if q.columns.length = 0 then
    (db, .error "table must have at least one column")
  else
    match buildColumns tableName q.columns 0 [] [] with
    | .error e => (db, .error e)
    | .ok tableColumns =>
      let table : Schema := ⟨tableName, tableColumns⟩
      let db1 := { db with tables := mapInsert db.tables tableName table }
      if storeOk then (db1, .ok ())
      else (db1, .error "failed to store tables")

/-- validateOperand in db.go: lower-cases the type tag and, for identifiers,
lower-cases the column name before the schema lookup. -/
def validateOperand (schema : Schema) (op : Operand) : Except String GoType :=
  let operandType := strToLower op.type
  if operandType = "value" then .ok (valueTypeOf op.value)
  else if operandType = "identifier" then
    match op.value with
    | .strVal s =>
      let column := strToLower s
      match mapGet schema.columns column with
      | none => .error "column does not exist"
      | some cd => .ok cd.reflectType
    | _ => .error "identifier is not a string"
  else .error "unsupported operand type"

def validateOperation (op : String) : Except String Unit :=
  if op = "eq" then .ok () else .error "unsupported operation"

/-- validateWhereExpr in db.go. -/
def validateWhereExpr (schema : Schema) : List WhereExpression → Except String Unit
  | [] => .ok ()
  | expr :: rest =>
    match validateOperand schema expr.left with
    | .error e => .error ("invalid left operand: " ++ e)
    | .ok lt =>
      match validateOperand schema expr.right with
      | .error e => .error ("invalid right operand: " ++ e)
      | .ok rt =>
        if rt != lt then .error "operand types do not match"
        else
          match validateOperation expr.operation with
          | .error e => .error ("invalid operation: " ++ e)
          | .ok _ => validateWhereExpr schema rest

/-- The string payload of an identifier operand. The source type-asserts
operand.Value.(string), which panics on a non-string; validation guarantees a
string before evaluation ever runs, and non-strings are modelled as "". -/
def valueAsString : Value → String
  | .strVal s => s
  | _ => ""

/-- extractVal in db.go. Fidelity points: the type tag is compared to the
exact string "value" (no case folding, unlike validateOperand), and the
identifier payload is looked up in schema.Columns WITHOUT lower-casing; a
missed lookup yields the Go zero ColumnDef, hence position 0. The source
indexes row[p], which panics out of range; rows of schema width make p in
range, and out-of-range reads are modelled as nullVal. -/
def extractVal (schema : Schema) (row : Row) (op : Operand) : Value :=
  if op.type = "value" then op.value
  else
    let column := valueAsString op.value
    let p := ((mapGet schema.columns column).getD zeroColumnDef).position
    row.getD p .nullVal

/-- exprMatch in db.go: Go interface equality on the two extracted values. -/
def exprMatch (schema : Schema) (row : Row) (expr : WhereExpression) : Bool :=
  extractVal schema row expr.right == extractVal schema row expr.left

/-- matches in db.go: conjunction over all WHERE expressions. -/
def rowMatches (schema : Schema) (row : Row) (exprs : List WhereExpression) : Bool :=
  exprs.all (exprMatch schema row)

/-- validateSetExpr in db.go (column is already lower-cased by the caller). -/
def validateSetExpr (schema : Schema) (column : String) (value : Value) :
    Except String Unit :=
  match mapGet schema.columns column with
  | none => .error "column does not exist"
  | some colDef =>
    if colDef.reflectType != valueTypeOf value then .error "types do not match"
    else .ok ()

/-- The loop body of validateExpr in db.go, with the set of already targeted
columns made explicit. -/
def validateExprAux (schema : Schema) : List SetExpression → List String →
    Except String Unit
  | [], _ => .ok ()
  | expr :: rest, updateCol =>
    let col := strToLower expr.column
    if updateCol.contains col then .error "column is mentioned twice"
    else
      match validateSetExpr schema col expr.value with
      | .error e => .error ("invalid expression: " ++ e)
      | .ok _ => validateExprAux schema rest (col :: updateCol)

/-- validateExpr in db.go: validates the SET part of an UPDATE. -/
def validateExpr (schema : Schema) (exprs : List SetExpression) : Except String Unit :=
  validateExprAux schema exprs []

/-- updateValues in db.go: copies the row and overwrites the targeted
positions. Fidelity point: the schema lookup uses expr.Column as given, NOT
lower-cased (validateExpr lower-cases before validating); an unknown key
yields the Go zero ColumnDef, hence position 0. -/
def updateValues (schema : Schema) (exprs : List SetExpression) (row : Row) : Row :=
  exprs.foldl
    (fun newRow expr =>
      newRow.set ((mapGet schema.columns expr.column).getD zeroColumnDef).position
        expr.value)
    row

/-- The first loop of Database.Insert: maps each supplied column name
(lower-cased) to its input index, failing on unknown columns; a repeated name
overwrites the earlier index, as Go map assignment does. -/
def buildInsertColumns (table : Schema) :
    List String → Nat → List (String × Nat) → Except String (List (String × Nat))
  | [], _, acc => .ok acc
  | column :: rest, index, acc =>
    let columnName := strToLower column
    if (mapGet table.columns columnName).isNone then
      .error "column does not exist in table"
    else buildInsertColumns table rest (index + 1) (mapInsert acc columnName index)

/-- The second loop of Database.Insert: every schema column must have been
supplied. -/
def checkRequired (cols : List (String × ColumnDef)) (ic : List (String × Nat)) :
    Except String Unit :=
  match cols with
  | [] => .ok ()
  | (_, cd) :: rest =>
    if (mapGet ic cd.name).isNone then .error "column value is not provided"
    else checkRequired rest ic

/-- sortValues in db.go, one row: a fresh row of the input length (Go nil cells
modelled as nullVal) with, for each supplied column, the cell at that column
schema position set to the input cell at the supplied index. -/
def sortValuesRow (table : Schema) (ic : List (String × Nat)) (row : Row) : Row :=
  ic.foldl
    (fun newRow e =>
      newRow.set ((mapGet table.columns e.1).getD zeroColumnDef).position
        (row.getD e.2 .nullVal))
    (List.replicate row.length Value.nullVal)

/-- sortValues in db.go: re-projects every value row. -/
def sortValues (table : Schema) (ic : List (String × Nat)) (values : List Row) :
    List Row :=
  values.map (sortValuesRow table ic)

/-- Database.Select in db.go. The result list is built by appending every
matching row, in stored order, to a freshly allocated sequence. -/
def selectOp (db : DB) (q : SelectQuery) : Except String (List Row) :=
  let tableName := strToLower q.fromTable
  match mapGet db.tables tableName with
  | none => .error "table does not exist"
  | some schema =>
    match validateWhereExpr schema q.whereExprs with
    | .error e => .error ("invalid WHERE part: " ++ e)
    | .ok _ =>
      .ok ((rowsInMem db tableName).foldl
        (fun matched row =>
          if rowMatches schema row q.whereExprs then matched ++ [row] else matched)
        [])

/-- Database.Insert in db.go. On updateFile failure the file state reached so
far is kept (the disk may have changed) but db.data is not touched. -/
def insertOp (f : IOFault) (db : DB) (q : InsertQuery) : DB × Except String Nat :=
  let tableName := strToLower q.tableName
  match mapGet db.tables tableName with
  | none => (db, .error "table does not exist")
  | some table =>
    if q.values.length = 0 then (db, .error "empty values, at least one is required")
    else
      match buildInsertColumns table q.columns 0 [] with
      | .error e => (db, .error e)
      | .ok insertColumns =>
        match checkRequired table.columns insertColumns with
        | .error e => (db, .error e)
        | .ok _ =>
          if q.values.any (fun row => row.length != q.columns.length) then
            (db, .error "the number of values must be equal to the number of columns")
          else
            let newRows := sortValues table insertColumns q.values
            match writeToFileNewRows f (fileOf db tableName) newRows with
            | (file1, some e) =>
              (setFile db tableName file1, .error ("failed to write to file: " ++ e))
            | (file1, none) =>
              let db1 := setFile db tableName file1
              (setData db1 tableName (rowsInMem db1 tableName ++ newRows),
                .ok newRows.length)

/-- The matching loop of Database.Update: collects index to new-row pairs for
every matching row, in stored order. -/
def collectUpdates (schema : Schema) (whereExprs : List WhereExpression)
    (set : List SetExpression) (rows : List Row) : List (Nat × Row) :=
  (rows.enum.filter (fun e => rowMatches schema e.2 whereExprs)).map
    (fun e => (e.1, updateValues schema set e.2))

/-- Database.Update in db.go. The query Limit field is never read. -/
def updateOp (f : IOFault) (db : DB) (q : UpdateQuery) : DB × Except String Nat :=
  let tableName := strToLower q.tableName
  match mapGet db.tables tableName with
  | none => (db, .error "table does not exist")
  | some schema =>
    match validateWhereExpr schema q.whereExprs with
    | .error e => (db, .error ("invalid WHERE part: " ++ e))
    | .ok _ =>
      match validateExpr schema q.set with
      | .error e => (db, .error ("invalid SET part: " ++ e))
      | .ok _ =>
        let tableData := rowsInMem db tableName
        let updateRows := collectUpdates schema q.whereExprs q.set tableData
        match updateRowsInFile f (fileOf db tableName) updateRows with
        | (file1, some e) =>
          (setFile db tableName file1, .error ("failed to update file: " ++ e))
        | (file1, none) =>
          let db1 := setFile db tableName file1
          (setData db1 tableName (applyUpdates updateRows tableData),
            .ok updateRows.length)

/-- The matching loop of Database.Delete: collects the indices of matching
rows, in stored order. -/
def collectDeletes (schema : Schema) (whereExprs : List WhereExpression)
    (rows : List Row) : List Nat :=
  (rows.enum.filter (fun e => rowMatches schema e.2 whereExprs)).map (fun e => e.1)

/-- Database.Delete in db.go. The query Limit field is never read. -/
def deleteOp (f : IOFault) (db : DB) (q : DeleteQuery) : DB × Except String Nat :=
  let tableName := strToLower q.tableName
  match mapGet db.tables tableName with
  | none => (db, .error "table does not exist")
  | some schema =>
    match validateWhereExpr schema q.whereExprs with
    | .error e => (db, .error ("invalid WHERE part: " ++ e))
    | .ok _ =>
      let tableData := rowsInMem db tableName
      let deleteIdx := collectDeletes schema q.whereExprs tableData
      match deleteRowsInFile f (fileOf db tableName) deleteIdx with
      | (file1, some e) =>
        (setFile db tableName file1, .error ("failed to update file: " ++ e))
      | (file1, none) =>
        let db1 := setFile db tableName file1
        (setData db1 tableName (removeRows deleteIdx tableData), .ok deleteIdx.length)

/-- loadData in db.go: for every table in the catalog, read and decode its row
file (a missing file is the empty sequence). -/
def loadData (tables : List (String × Schema)) (files : List (String × FileState)) :
    Except String (List (String × List Row)) :=
  match tables with
  | [] => .ok []
  | (tn, _) :: rest =>
    match readTableFile ((mapGet files tn).getD .missing) with
    | .error e => .error e
    | .ok rows =>
      match loadData rest files with
      | .error e => .error e
      | .ok acc => .ok ((tn, rows) :: acc)

/-- Modelled from the spec (section 3, data model): a row value is assignable
to a column type when integer columns hold integers and string columns hold
strings. Used only to STATE the type invariant; the source has no
corresponding check. -/
def valueAssignable : String → Value → Bool
  | "integer", .intVal _ => true
  | "string", .strVal _ => true
  | _, _ => false

/-- Reference-level model of one table for aliasing questions: rows live in a
heap (Go backing arrays) and both the engine mirror and Select results hold
references (Go slice headers) into it. -/
structure PtrTable where
  heap : List Row
  refs : List Nat

/-- Dereference one row. -/
def rowAt (pt : PtrTable) (r : Nat) : Row := pt.heap.getD r []

/-- The rows the engine sees for the table. -/
def tableRows (pt : PtrTable) : List Row := pt.refs.map (rowAt pt)

/-- Database.Select at the reference level: the matched sequence is freshly
allocated, but it is filled with the engine's own row references (the Go code
appends the row slice header, not a copy of the cells). -/
def selectRefs (schema : Schema) (pt : PtrTable) (es : List WhereExpression) :
    List Nat :=
  pt.refs.foldl
    (fun matched r =>
      if rowMatches schema (rowAt pt r) es then matched ++ [r] else matched)
    []

/-- A caller writing through a row reference it received (result[i][j] = v in
Go mutates the shared backing array). -/
def writeThroughRef (pt : PtrTable) (r : Nat) (row : Row) : PtrTable :=
  ⟨pt.heap.set r row, pt.refs⟩

/-- States reachable from db0 by successful Insert calls only. -/
inductive ReachableIns : DB → DB → Prop
  | refl (db : DB) : ReachableIns db db
  | step (db0 db1 db2 : DB) (f : IOFault) (q : InsertQuery) (k : Nat) :
      ReachableIns db0 db1 → insertOp f db1 q = (db2, Except.ok k) →
      ReachableIns db0 db2

/-- Every table file decodes to exactly the in-memory mirror. -/
def MirrorInv (db : DB) : Prop :=
  ∀ t, readTableFile (fileOf db t) = Except.ok (rowsInMem db t)

/-- Tests whether a file state is a complete JSON snapshot. -/
def FileState.isContent : FileState → Bool
  | .content _ => true
  | _ => false

/-- Concrete states used by the closed theorems below. -/
def dbEmpty : DB := ⟨[], [], []⟩

/-- Schema of table t with columns a (position 0) and b (position 1), both
integer; this is what createTable builds for qCT2. -/
def sAB : Schema := ⟨"t", [("a", ⟨"a", "integer", 0⟩), ("b", ⟨"b", "integer", 1⟩)]⟩

def qCT2 : CreateTableQuery := ⟨"t", [⟨"a", "integer"⟩, ⟨"b", "integer"⟩]⟩

def dbT2 : DB := (createTable true dbEmpty qCT2).1

/-- The projection-correctness example from the spec: insert columns [b, a]
with value row [2, 1]. -/
def qInsBA : InsertQuery := ⟨"t", ["b", "a"], [[Value.intVal 2, Value.intVal 1]]⟩

/-- The insert-column map that insertOp builds for qInsBA. -/
def icBA : List (String × Nat) := [("b", 0), ("a", 1)]

def dbIns1 : DB := (insertOp noFault dbT2 qInsBA).1

def qInsAB : InsertQuery := ⟨"t", ["a", "b"], [[Value.intVal 3, Value.intVal 4]]⟩

def dbIns2 : DB := (insertOp noFault dbIns1 qInsAB).1

/-- One-column integer schema for the reference-level Select example. -/
def sA : Schema := ⟨"t", [("a", ⟨"a", "integer", 0⟩)]⟩

def ptEx : PtrTable := ⟨[[Value.intVal 1]], [0]⟩

/-- Engine state with table t holding the single row [1], for the Select
witness. -/
def dbSel : DB := ⟨[("t", sA)], [("t", [[Value.intVal 1]])], []⟩

/-- WHERE expression comparing the upper-case identifier B with the literal 2. -/
def whereB : WhereExpression :=
  ⟨⟨Value.strVal "B", "identifier"⟩, "eq", ⟨Value.intVal 2, "value"⟩⟩

/-- SET expression targeting the upper-case column name B. -/
def setB : SetExpression := ⟨"B", Value.intVal 9⟩

/-- The association list that the buildInsertColumns loop produces when the
lower-cased supplied column names are pairwise distinct: each supplied column
paired with its input index, starting at i. -/
def icList : List String → Nat → List (String × Nat)
  | [], _ => []
  | c :: rest, i => (strToLower c, i) :: icList rest (i + 1)

theorem mapGet_mapInsert_self (l : List (String × α)) (k : String) (v : α) :
    mapGet (mapInsert l k v) k = some v := by
  induction l with
  | nil => simp [mapInsert, mapGet]
  | cons hd tl ih =>
    obtain ⟨k1, v1⟩ := hd
    by_cases h : k1 = k <;> simp [mapInsert, mapGet, h, ih]

theorem mapGet_mapInsert_ne (l : List (String × α)) (k key : String) (v : α)
    (h : key ≠ k) : mapGet (mapInsert l k v) key = mapGet l key := by
  have hk : ¬k = key := fun e => h e.symm
  induction l with
  | nil => simp [mapInsert, mapGet, hk]
  | cons hd tl ih =>
    obtain ⟨k1, v1⟩ := hd
    by_cases h1 : k1 = k
    · subst h1
      simp [mapInsert, mapGet, hk]
    · simp [mapInsert, mapGet, h1, ih]

theorem mapInsert_eq_append (l : List (String × α)) (k : String) (v : α)
    (h : mapGet l k = none) : mapInsert l k v = l ++ [(k, v)] := by
  induction l with
  | nil => rfl
  | cons hd tl ih =>
    obtain ⟨k1, v1⟩ := hd
    by_cases h1 : k1 = k
    · subst h1; simp [mapGet] at h
    · simp only [mapGet, if_neg h1] at h
      simp [mapInsert, h1, ih h]

theorem mapGet_append_of_none (l1 l2 : List (String × α)) (k : String)
    (h : mapGet l1 k = none) : mapGet (l1 ++ l2) k = mapGet l2 k := by
  induction l1 with
  | nil => rfl
  | cons hd tl ih =>
    obtain ⟨k1, v1⟩ := hd
    by_cases h1 : k1 = k
    · subst h1; simp [mapGet] at h
    · simp only [mapGet, if_neg h1] at h
      simp [mapGet, h1, ih h]

theorem decodeVal_encodeVal (v : Value) : decodeVal (encodeVal v) = some v := by
  cases v <;> rfl

theorem decodeList_encode (fe : α → Jval) (fd : Jval → Option α)
    (h : ∀ a, fd (fe a) = some a) (l : List α) :
    decodeList fd (l.map fe) = some l := by
  induction l with
  | nil => rfl
  | cons a l ih => simp [decodeList, h a, ih]

theorem decodeRow_encodeRow (r : Row) : decodeRow (encodeRow r) = some r := by
  simp [encodeRow, decodeRow, decodeList_encode encodeVal decodeVal decodeVal_encodeVal]

theorem decodeRows_encodeRows (rs : List Row) : decodeRows (encodeRows rs) = some rs := by
  simp [encodeRows, decodeRows, decodeList_encode encodeRow decodeRow decodeRow_encodeRow]

theorem readTableFile_content (rs : List Row) :
    readTableFile (FileState.content (encodeRows rs)) = Except.ok rs := by
  simp [readTableFile, decodeRows_encodeRows]

theorem foldl_append_filter (p : α → Bool) (l acc : List α) :
    l.foldl (fun m r => if p r then m ++ [r] else m) acc = acc ++ l.filter p := by
  induction l generalizing acc with
  | nil => simp
  | cons a l ih => by_cases h : p a <;> simp [List.filter_cons, h, ih]

theorem foldl_set_get?_not_mem (p : ι → Nat) (v : ι → α) (l : List ι)
    (acc : List α) (i : Nat) (h : ∀ e ∈ l, p e ≠ i) :
    (l.foldl (fun r e => r.set (p e) (v e)) acc).get? i = acc.get? i := by
  induction l generalizing acc with
  | nil => rfl
  | cons a l ih =>
    rw [List.foldl_cons, ih _ (fun e he => h e (List.mem_cons_of_mem a he))]
    exact List.get?_set_ne _ _ (h a (List.mem_cons_self a l))

theorem foldl_set_length (p : ι → Nat) (v : ι → α) (l : List ι) (acc : List α) :
    (l.foldl (fun r e => r.set (p e) (v e)) acc).length = acc.length := by
  induction l generalizing acc with
  | nil => rfl
  | cons a l ih => rw [List.foldl_cons, ih, List.length_set]

theorem foldl_set_get?_mem (p : ι → Nat) (v : ι → α) (l : List ι) (acc : List α)
    (e : ι) (he : e ∈ l) (hnd : (l.map p).Nodup) (hlt : p e < acc.length) :
    (l.foldl (fun r el => r.set (p el) (v el)) acc).get? (p e) = some (v e) := by
  induction l generalizing acc with
  | nil => cases he
  | cons a l ih =>
    rcases List.mem_cons.mp he with rfl | he2
    · rw [List.foldl_cons]
      have hnotin : ∀ x ∈ l, p x ≠ p e := by
        intro x hx hcontra
        exact (List.nodup_cons.mp (by simpa using hnd)).1 (hcontra ▸ List.mem_map_of_mem p hx)
      rw [foldl_set_get?_not_mem p v l _ _ hnotin]
      exact List.get?_set_eq_of_lt _ hlt
    · rw [List.foldl_cons]
      exact ih _ he2 (List.nodup_cons.mp (by simpa using hnd)).2
        (by rw [List.length_set]; exact hlt)

theorem sortValuesRow_get? (table : Schema) (ic : List (String × Nat)) (row : Row)
    (e : String × Nat) (he : e ∈ ic)
    (hnd : (ic.map
      (fun x => ((mapGet table.columns x.1).getD zeroColumnDef).position)).Nodup)
    (hlt : ((mapGet table.columns e.1).getD zeroColumnDef).position < row.length) :
    (sortValuesRow table ic row).get?
        ((mapGet table.columns e.1).getD zeroColumnDef).position =
      some (row.getD e.2 Value.nullVal) := by
  unfold sortValuesRow
  exact foldl_set_get?_mem
    (fun x => ((mapGet table.columns x.1).getD zeroColumnDef).position)
    (fun x => row.getD x.2 Value.nullVal) ic (List.replicate row.length Value.nullVal)
    e he hnd (by simpa using hlt)

theorem buildInsertColumns_ok_eq (table : Schema) (cs : List String) :
    ∀ (i : Nat) (acc ic : List (String × Nat)),
      (∀ c ∈ cs, mapGet acc (strToLower c) = none) →
      (cs.map strToLower).Nodup →
      buildInsertColumns table cs i acc = Except.ok ic →
      ic = acc ++ icList cs i := by
  induction cs with
  | nil =>
    intro i acc ic _ _ h
    simp only [buildInsertColumns] at h
    injection h with h
    simp [icList, h.symm]
  | cons c rest ih =>
    intro i acc ic hdisj hnd h
    simp only [buildInsertColumns] at h
    by_cases hex : (mapGet table.columns (strToLower c)).isNone
    · rw [if_pos hex] at h
      exact Except.noConfusion h
    · rw [if_neg hex] at h
      have hacc : mapGet acc (strToLower c) = none := hdisj c (List.mem_cons_self c rest)
      rw [mapInsert_eq_append _ _ _ hacc] at h
      have hndrest : (rest.map strToLower).Nodup :=
        (List.nodup_cons.mp (by simpa using hnd)).2
      have hhead : strToLower c ∉ rest.map strToLower :=
        (List.nodup_cons.mp (by simpa using hnd)).1
      have hdisj2 : ∀ c2 ∈ rest, mapGet (acc ++ [(strToLower c, i)]) (strToLower c2) = none := by
        intro c2 hc2
        rw [mapGet_append_of_none _ _ _ (hdisj c2 (List.mem_cons_of_mem c hc2))]
        have hne : ¬strToLower c = strToLower c2 := by
          intro hcontra
          exact hhead (hcontra ▸ List.mem_map_of_mem strToLower hc2)
        simp [mapGet, hne]
      have := ih (i + 1) (acc ++ [(strToLower c, i)]) ic hdisj2 hndrest h
      simp [this, icList]

theorem icList_mem (cs : List String) :
    ∀ (i j : Nat) (hj : j < cs.length),
      (strToLower (cs.get ⟨j, hj⟩), i + j) ∈ icList cs i := by
  induction cs with
  | nil => intro i j hj; cases hj
  | cons c rest ih =>
    intro i j hj
    cases j with
    | zero => simp [icList]
    | succ j2 =>
      have := ih (i + 1) j2 (Nat.lt_of_succ_lt_succ hj)
      simp only [icList, List.get]
      right
      have harith : i + (j2 + 1) = i + 1 + j2 := by omega
      rw [harith]
      exact this

theorem writeToFileNewRows_ok (f : IOFault) (file : FileState) (newRows : List Row)
    (file1 : FileState) (h : writeToFileNewRows f file newRows = (file1, none)) :
    ∃ rows, readTableFile file = Except.ok rows ∧
      file1 = FileState.content (encodeRows (rows ++ newRows)) := by
  unfold writeToFileNewRows updateFile at h
  repeat' split at h
  all_goals try (injection h with h1 h2; exact Option.noConfusion h2)
  rename_i rows hread hcf x2 newRows2 hbeta henc
  have hnr : newRows2 = rows ++ newRows := (Except.ok.inj hbeta).symm
  injection h with h1 h2
  exact ⟨rows, hread, by rw [← h1, hnr]⟩

theorem insertOp_ok_inversion (f : IOFault) (db db' : DB) (q : InsertQuery) (k : Nat)
    (hok : insertOp f db q = (db', Except.ok k)) :
    ∃ (table : Schema) (ic : List (String × Nat)) (rows : List Row),
      mapGet db.tables (strToLower q.tableName) = some table ∧
      buildInsertColumns table q.columns 0 [] = Except.ok ic ∧
      readTableFile (fileOf db (strToLower q.tableName)) = Except.ok rows ∧
      db'.tables = db.tables ∧
      db'.files = mapInsert db.files (strToLower q.tableName)
        (FileState.content (encodeRows (rows ++ sortValues table ic q.values))) ∧
      db'.data = mapInsert db.data (strToLower q.tableName)
        (rowsInMem db (strToLower q.tableName) ++ sortValues table ic q.values) ∧
      k = (sortValues table ic q.values).length := by
  unfold insertOp at hok
  simp only [] at hok
  repeat' split at hok
  all_goals try (injection hok with h1 h2; exact Except.noConfusion h2)
  rename_i x0 table htable hlen x1 ic hic x2 a2 hcheck harity x3 file1 heqw
  obtain ⟨rows, hread, hfile1⟩ := writeToFileNewRows_ok f _ _ file1 heqw
  injection hok with h1 h2
  refine ⟨table, ic, rows, htable, hic, hread, ?_, ?_, ?_, ?_⟩
  · rw [← h1]
    rfl
  · rw [← h1, hfile1]
    rfl
  · rw [← h1]
    rfl
  · exact (Except.ok.inj h2).symm

theorem MirrorInv_insertOp (f : IOFault) (db db' : DB) (q : InsertQuery) (k : Nat)
    (h : insertOp f db q = (db', Except.ok k)) (hinv : MirrorInv db) :
    MirrorInv db' := by
  obtain ⟨table, ic, rows, htable, hic, hread, htb, hfl, hdt, hk⟩ :=
    insertOp_ok_inversion f db db' q k h
  have hrows : rows = rowsInMem db (strToLower q.tableName) := by
    have h2 := hinv (strToLower q.tableName)
    rw [hread] at h2
    exact Except.ok.inj h2
  intro t
  by_cases hteq : t = strToLower q.tableName
  · subst hteq
    simp only [fileOf, rowsInMem, hfl, hdt, mapGet_mapInsert_self, Option.getD_some]
    rw [hrows] at *
    exact readTableFile_content _
  · simp only [fileOf, rowsInMem, hfl, hdt, mapGet_mapInsert_ne _ _ _ _ hteq]
    exact hinv t

theorem loadData_of_MirrorInv (db : DB) (hinv : MirrorInv db)
    (tables : List (String × Schema)) :
    loadData tables db.files =
      Except.ok (tables.map (fun e => (e.1, rowsInMem db e.1))) := by
  induction tables with
  | nil => rfl
  | cons hd tl ih =>
    obtain ⟨tn, sch⟩ := hd
    have h1 : ((mapGet db.files tn).getD FileState.missing) = fileOf db tn := rfl
    simp only [loadData, h1, hinv tn, ih, List.map_cons]

/-- C1: the claim says a failed catalog persist leaves the in-memory table map
unchanged. The code inserts the new table into db.tables before calling
storeSchema and never rolls back: after a CreateTable call on an empty engine
whose persist step fails, the call returns an error, yet the table map contains
the new table. -/
theorem createTable_keeps_table_on_failed_persist :
    createTable false dbEmpty ⟨"t", [⟨"a", "integer"⟩]⟩ =
      (⟨[("t", ⟨"t", [("a", ⟨"a", "integer", 0⟩)]⟩)], [], []⟩,
        Except.error "failed to store tables") ∧
    mapGet (createTable false dbEmpty ⟨"t", [⟨"a", "integer"⟩]⟩).1.tables "t" =
      some ⟨"t", [("a", ⟨"a", "integer", 0⟩)]⟩ ∧
    dbEmpty.tables = [] := ⟨rfl, rfl, rfl⟩

/-- C2: the claim says the write handle is opened only after the new content is
fully computed, so a failure during encode leaves the prior file intact. The
code calls os.Create (truncating the file) before running the update callback
and the encoder: with an injected encode failure, updateFile on a file holding
the one-row snapshot returns an error and leaves the file corrupt — neither
the prior complete state nor a new complete state. -/
theorem updateFile_truncates_before_encode :
    updateFile ⟨false, true⟩ (FileState.content (encodeRows [[Value.intVal 1]]))
        (fun rows => Except.ok (rows ++ [[Value.intVal 2]])) =
      (FileState.corrupt, some "failed to encode JSON and write to file") ∧
    FileState.isContent FileState.corrupt = false ∧
    FileState.isContent (FileState.content (encodeRows [[Value.intVal 1]])) = true :=
  ⟨rfl, rfl, rfl⟩

/-- C3: the claim says every stored row is type-correct at every position
after any successful operation sequence. Insert performs no value-type
validation: inserting the string x into the single integer column of a fresh
table succeeds and stores a row whose value at position 0 is not assignable to
the column type integer. -/
theorem insertOp_accepts_ill_typed_value :
    (insertOp noFault (createTable true dbEmpty ⟨"t", [⟨"a", "integer"⟩]⟩).1
        ⟨"t", ["a"], [[Value.strVal "x"]]⟩).2 = Except.ok 1 ∧
    rowsInMem (insertOp noFault (createTable true dbEmpty ⟨"t", [⟨"a", "integer"⟩]⟩).1
        ⟨"t", ["a"], [[Value.strVal "x"]]⟩).1 "t" = [[Value.strVal "x"]] ∧
    mapGet (createTable true dbEmpty ⟨"t", [⟨"a", "integer"⟩]⟩).1.tables "t" =
      some ⟨"t", [("a", ⟨"a", "integer", 0⟩)]⟩ ∧
    valueAssignable "integer" (Value.strVal "x") = false := ⟨rfl, rfl, rfl, rfl⟩

/-- C4: the claim says a column name that fails the name format check makes
CreateTable fail with InvalidName and create nothing. The code validates
tableName instead of the column name in the column loop (db.go line 394), so
creating table t with the invalid column name a-b succeeds and stores the
column. -/
theorem createTable_accepts_invalid_column_name :
    (createTable true dbEmpty ⟨"t", [⟨"a-b", "integer"⟩]⟩).2 = Except.ok () ∧
    mapGet (createTable true dbEmpty ⟨"t", [⟨"a-b", "integer"⟩]⟩).1.tables "t" =
      some ⟨"t", [("a-b", ⟨"a-b", "integer", 0⟩)]⟩ ∧
    isValidNameFormat "a-b" = false := ⟨rfl, rfl, rfl⟩

/-- C5: the claim says matches evaluates an identifier operand of any casing to
the row value at the named column position. Validation lower-cases, but
extractVal looks the raw name up case-sensitively (and compares the type tag to
the exact string value): for the WHERE expression B = 2 against the row [1, 2]
of schema a at 0, b at 1, validation passes, the value at the position of
column b equals the literal 2, yet matches returns false (it read position 0
through the missed lookup). -/
theorem rowMatches_diverges_on_uppercase_identifier :
    validateWhereExpr sAB [whereB] = Except.ok () ∧
    rowMatches sAB [Value.intVal 1, Value.intVal 2] [whereB] = false ∧
    ((mapGet sAB.columns "b").getD zeroColumnDef).position = 1 ∧
    [Value.intVal 1, Value.intVal 2].getD 1 Value.nullVal = Value.intVal 2 ∧
    whereB.right.value = Value.intVal 2 := ⟨rfl, rfl, rfl, rfl, rfl⟩

/-- C6: the claim says apply_set overwrites exactly the positions of the
targeted columns, matched case-insensitively as in validation. validateExpr
lower-cases the SET column name but updateValues uses it raw: SET B = 9
against schema a at 0, b at 1 validates, yet updateValues [1, 2] yields [9, 2]
(position 0 through the missed lookup) instead of [1, 9] at position 1. -/
theorem updateValues_diverges_on_uppercase_column :
    validateExpr sAB [setB] = Except.ok () ∧
    updateValues sAB [setB] [Value.intVal 1, Value.intVal 2] =
      [Value.intVal 9, Value.intVal 2] ∧
    ((mapGet sAB.columns "b").getD zeroColumnDef).position = 1 := ⟨rfl, rfl, rfl⟩

/-- C8 counterexample: the claim says callers cannot mutate engine-owned
storage through the Select result. At the reference level Select fills its
fresh outer sequence with the engine's own row references: selecting all rows
from a one-row table returns exactly the engine reference 0, and writing a new
row through that reference changes the rows the engine sees. -/
theorem selectRefs_alias_counterexample :
    selectRefs sA ptEx [] = [0] ∧ ptEx.refs = [0] ∧
    tableRows ptEx = [[Value.intVal 1]] ∧
    tableRows (writeThroughRef ptEx 0 [Value.intVal 7]) = [[Value.intVal 7]] :=
  ⟨rfl, rfl, rfl, rfl⟩

/-- C10: Update and Delete never read the query Limit field: two runs that
differ only in Limit return the same state and the same result. -/
theorem updateOp_deleteOp_ignore_limit :
    (∀ (f : IOFault) (db : DB) (tn : String) (w : List WhereExpression)
      (s : List SetExpression) (l1 l2 : Int),
      updateOp f db ⟨tn, w, s, l1⟩ = updateOp f db ⟨tn, w, s, l2⟩) ∧
    (∀ (f : IOFault) (db : DB) (tn : String) (w : List WhereExpression)
      (l1 l2 : Int),
      deleteOp f db ⟨tn, w, l1⟩ = deleteOp f db ⟨tn, w, l2⟩) :=
  ⟨fun _ _ _ _ _ _ _ => rfl, fun _ _ _ _ _ _ => rfl⟩

/-- C7: for every successful Insert (with the supplied column names distinct
after case folding, pairwise-distinct valid positions, and indices within row
width), the stored rows are exactly the re-projections of the value rows
appended to the prior rows; the insert-column map pairs each supplied column
with its input index, and each projected row holds, at the schema position of
a supplied column, the input value at that column index. -/
theorem insertOp_projects_values (f : IOFault) (db db' : DB) (q : InsertQuery)
    (k : Nat) (table : Schema) (ic : List (String × Nat))
    (htable : mapGet db.tables (strToLower q.tableName) = some table)
    (hic : buildInsertColumns table q.columns 0 [] = Except.ok ic)
    (hok : insertOp f db q = (db', Except.ok k))
    (hnames : (q.columns.map strToLower).Nodup)
    (hpos : (ic.map
      (fun e => ((mapGet table.columns e.1).getD zeroColumnDef).position)).Nodup)
    (hbnd : ∀ e ∈ ic, ∀ row ∈ q.values,
      ((mapGet table.columns e.1).getD zeroColumnDef).position < row.length ∧
      e.2 < row.length) :
    rowsInMem db' (strToLower q.tableName) =
      rowsInMem db (strToLower q.tableName) ++ sortValues table ic q.values ∧
    (∀ j (hj : j < q.columns.length), (strToLower (q.columns.get ⟨j, hj⟩), j) ∈ ic) ∧
    (∀ row ∈ q.values, ∀ e ∈ ic,
      (sortValuesRow table ic row).get?
          ((mapGet table.columns e.1).getD zeroColumnDef).position =
        some (row.getD e.2 Value.nullVal)) := by
  obtain ⟨table2, ic2, rows, htable2, hic2, hread, htb, hfl, hdt, hk⟩ :=
    insertOp_ok_inversion f db db' q k hok
  rw [htable] at htable2
  have hteq : table = table2 := Option.some.inj htable2
  subst hteq
  rw [hic] at hic2
  have hiceq : ic = ic2 := Except.ok.inj hic2
  subst hiceq
  refine ⟨?_, ?_, ?_⟩
  · simp only [rowsInMem, hdt, mapGet_mapInsert_self, Option.getD_some]
  · intro j hj
    have hiceq2 : ic = [] ++ icList q.columns 0 :=
      buildInsertColumns_ok_eq table q.columns 0 [] ic (fun c _ => rfl) hnames hic
    rw [hiceq2]
    simpa using icList_mem q.columns 0 j hj
  · intro row hrow e he
    exact sortValuesRow_get? table ic row e he hpos (hbnd e he row hrow).1

/-- Witness for C7 at the projection example from the spec: inserting columns
b, a with value row 2, 1 into a table with schema a at position 0 and b at
position 1 stores the row 1, 2. -/
theorem insertOp_projects_values_witness :
    rowsInMem dbIns1 "t" = [[Value.intVal 1, Value.intVal 2]] := by
  have h := insertOp_projects_values noFault dbT2 dbIns1 qInsBA 1 sAB icBA
    rfl rfl rfl (by decide) (by decide) (by decide)
  exact h.1.trans (by rfl)

/-- C8 amended: Select returns exactly the rows for which matches holds,
preserving stored order (with an empty WHERE list, all rows in insertion
order) in a freshly built outer sequence; however the rows themselves are the
engine-owned references, so every reference in the result is one the engine
holds. -/
theorem selectOp_filter_and_shared_refs :
    (∀ (db : DB) (q : SelectQuery) (schema : Schema),
      mapGet db.tables (strToLower q.fromTable) = some schema →
      validateWhereExpr schema q.whereExprs = Except.ok () →
      selectOp db q = Except.ok ((rowsInMem db (strToLower q.fromTable)).filter
        (fun row => rowMatches schema row q.whereExprs))) ∧
    (∀ (schema : Schema) (pt : PtrTable) (es : List WhereExpression) (r : Nat),
      r ∈ selectRefs schema pt es → r ∈ pt.refs) := by
  constructor
  · intro db q schema htable hval
    unfold selectOp
    simp only []
    split
    · rename_i heq
      rw [htable] at heq
      exact Option.noConfusion heq
    · rename_i schema2 heq
      rw [htable] at heq
      have hs : schema = schema2 := Option.some.inj heq
      subst hs
      split
      · rename_i e heq2
        rw [hval] at heq2
        exact Except.noConfusion heq2
      · rename_i a heq2
        rw [foldl_append_filter (fun row => rowMatches schema row q.whereExprs)
          (rowsInMem db (strToLower q.fromTable)) []]
        rfl
  · intro schema pt es r hr
    unfold selectRefs at hr
    rw [foldl_append_filter (fun r => rowMatches schema (rowAt pt r) es)
      pt.refs []] at hr
    simp only [List.nil_append] at hr
    exact (List.mem_filter.mp hr).1

/-- Witness for C8 amended: selecting with an empty WHERE list from a one-row
table returns exactly that row. -/
theorem selectOp_filter_and_shared_refs_witness :
    selectOp dbSel ⟨"t", []⟩ = Except.ok [[Value.intVal 1]] ∧ 0 ∈ ptEx.refs := by
  constructor
  · have h := selectOp_filter_and_shared_refs.1 dbSel ⟨"t", []⟩ sA rfl rfl
    exact h.trans (by rfl)
  · exact selectOp_filter_and_shared_refs.2 sA ptEx [] 0 (by decide)

/-- C9: from any engine state with no row files and an empty mirror (a fresh
data directory), after any sequence of successful Insert calls, reloading
every table file from disk reproduces exactly the in-memory row sequence of
every table. -/
theorem reload_reproduces_memory (db0 db : DB)
    (h0 : db0.data = [] ∧ db0.files = []) (h : ReachableIns db0 db) :
    loadData db.tables db.files =
      Except.ok (db.tables.map (fun e => (e.1, rowsInMem db e.1))) := by
  have hinv : MirrorInv db := by
    induction h with
    | refl =>
      intro t
      simp only [fileOf, rowsInMem, h0.1, h0.2, mapGet, Option.getD_none,
        readTableFile]
    | step d1 d2 f q k hr hins ih =>
      exact MirrorInv_insertOp f d1 d2 q k hins ih
  exact loadData_of_MirrorInv db hinv db.tables

/-- Witness for C9: after creating a two-column table and performing two
successful inserts, reloading from the files reproduces the two stored rows. -/
theorem reload_reproduces_memory_witness :
    loadData dbIns2.tables dbIns2.files =
      Except.ok [("t", [[Value.intVal 1, Value.intVal 2],
        [Value.intVal 3, Value.intVal 4]])] := by
  have h := reload_reproduces_memory dbT2 dbIns2 ⟨rfl, rfl⟩
    (ReachableIns.step dbT2 dbIns1 dbIns2 noFault qInsAB 1
      (ReachableIns.step dbT2 dbT2 dbIns1 noFault qInsBA 1
        (ReachableIns.refl dbT2) rfl) rfl)
  exact h.trans (by rfl)
